import Mathlib

/-!
Verification of the ENTSO-E ingestion pipeline
(`scripts/ingest_entsoe_data.py`) against its specification.

The script is embedded shallowly: every pure helper becomes a Lean
function on `List Char` / `String`; the pandas DataFrame is modelled by
its column structure and row count (the only parts the specification's
claims are about); remote calls (ENTSO-E client methods, the BigQuery
load job) are modelled as function parameters returning `Except`, so
that "the call raised" is `Except.error` and catching is a `match`.
Strings are lowercased character-wise via `Char.toLower`, which agrees
with Python `str.lower` on the ASCII range.
-/

namespace Entsoe

/-- The character class `[a-z0-9_]` of the sanitizer's regular
expression `[^a-z0-9_]` (source line 43): kept characters, as code
point ranges (`a`–`z` is 97–122, `0`–`9` is 48–57, `_` is 95). -/
def isAllowed (c : Char) : Bool :=
  (97 ≤ c.toNat && c.toNat ≤ 122) || (48 ≤ c.toNat && c.toNat ≤ 57) || c.toNat == 95

/-- The character class `[a-z0-9]` (letters and digits only). -/
def isAlnum (c : Char) : Bool :=
  (97 ≤ c.toNat && c.toNat ≤ 122) || (48 ≤ c.toNat && c.toNat ≤ 57)

/-- Python `str.lower()`, character-wise (exact on ASCII). -/
def pyLower (s : String) : String :=
  ⟨s.data.map Char.toLower⟩

/-- Step 2 of `sanitize_column_name`: `re.sub(r'[^a-z0-9_]', '_', s)` —
every character outside `[a-z0-9_]` becomes an underscore. -/
def replaceSpecial (l : List Char) : List Char :=
  l.map fun c => if isAllowed c then c else '_'

/-- Step 3 of `sanitize_column_name`: `re.sub(r'_+', '_', s)` — every
maximal run of underscores becomes a single underscore.  A run is
collapsed by dropping each underscore that is immediately followed by
another one. -/
def collapseUnderscores : List Char → List Char
  | [] => []
  | [c] => [c]
  | a :: b :: rest =>
    if a = '_' && b = '_' then collapseUnderscores (b :: rest)
    else a :: collapseUnderscores (b :: rest)

/-- Step 4 of `sanitize_column_name`: Python `s.strip('_')` — drop
leading underscores, then drop trailing ones (via `reverse`). -/
def stripUnderscores (l : List Char) : List Char :=
  ((l.dropWhile (· = '_')).reverse.dropWhile (· = '_')).reverse

/-- `sanitize_column_name` (source lines 22–51): lowercase, replace the
characters outside `[a-z0-9_]` by underscores, collapse underscore
runs, strip leading/trailing underscores. -/
def sanitize_column_name (s : String) : String :=
  ⟨stripUnderscores (collapseUnderscores (replaceSpecial (s.data.map Char.toLower)))⟩

/-- Collapsing of consecutive underscores as the specification words
it: a right fold that keeps an underscore only when the collapsed tail
does not already start with one. -/
def collapseSpec (l : List Char) : List Char :=
  l.foldr (fun c acc => if c = '_' && acc.head? = some '_' then acc else c :: acc) []

/-- The sanitizer as the specification words it, built from different
primitives for comparison with the source embedding: collapsing is a
right fold, and trimming uses `dropWhile` / `rdropWhile`. -/
def sanitizeSpec (s : String) : String :=
  let lowered := s.data.map Char.toLower
  let replaced := lowered.map fun c => if isAllowed c then c else '_'
  ⟨List.rdropWhile (· = '_') ((collapseSpec replaced).dropWhile (· = '_'))⟩

/-- `get_table_name` (source lines 53–69): a static three-entry mapping
with a derived fallback `bronze_entsoe_<lowercased code>`. -/
def get_table_name (document_type : String) : String :=
  if document_type = "A75" then "bronze_entsoe_a75_actual_generation"
  else if document_type = "A73" then "bronze_entsoe_a73_generation_forecast"
  else if document_type = "A68" then "bronze_entsoe_a68_installed_capacity"
  else "bronze_entsoe_" ++ pyLower document_type

/-- Column labels of a pandas DataFrame: either a flat index of string
labels or a MultiIndex of tuple labels. -/
inductive Columns where
  | flat (names : List String)
  | multi (names : List (List String))

/-- The parts of a pandas DataFrame that the loader's column handling
observes: the labels the index contributes on `reset_index`, the column
labels, and the number of rows. -/
structure DataFrame where
  index_names : List String
  columns : Columns
  nrows : Nat

/-- Number of columns. -/
def DataFrame.ncols (df : DataFrame) : Nat :=
  match df.columns with
  | .flat names => names.length
  | .multi names => names.length

/-- pandas `df.empty`: true when any axis has length 0. -/
def DataFrame.isEmpty (df : DataFrame) : Bool :=
  df.nrows = 0 || df.ncols = 0

/-- Python `str.strip()` on the joined MultiIndex label (source line
224): drop leading and trailing whitespace. -/
def pyStrip (s : String) : String :=
  ⟨List.rdropWhile Char.isWhitespace (s.data.dropWhile Char.isWhitespace)⟩

/-- Steps 1.1–1.3 of `load_to_bigquery` (source lines 220–227):
`reset_index` materializes the index labels as leading columns, a
MultiIndex of columns is flattened by joining each tuple with
underscores and stripping whitespace, and labels become strings. -/
def rawColumnNames (df : DataFrame) : List String :=
  match df.columns with
  | .flat names => df.index_names ++ names
  | .multi names =>
    df.index_names ++ names.map fun col => pyStrip (String.intercalate "_" col)

/-- Step 1.4 of `load_to_bigquery` (source line 230): sanitize every
column name. -/
def sanitizedColumnNames (df : DataFrame) : List String :=
  (rawColumnNames df).map sanitize_column_name

/-- pandas `df[name] = value` at the level of column labels: assigning
to an existing label overwrites that column in place; otherwise a new
column is appended at the end. -/
def assignColumn (cols : List String) (name : String) : List String :=
  if name ∈ cols then cols else cols ++ [name]

/-- Step 1.5 of `load_to_bigquery` (source lines 233–235): column names
of the prepared DataFrame after assigning the three metadata columns. -/
def preparedColumnNames (df : DataFrame) : List String :=
  assignColumn (assignColumn (assignColumn (sanitizedColumnNames df)
    "country_code") "document_type") "ingestion_timestamp"

/-- `load_to_bigquery` (source lines 197–272).  The BigQuery load job
(`client.load_table_from_dataframe` + `job.result()`, the only calls of
the body that can raise) is a parameter `bq_load`, given the full table
id and the prepared DataFrame column names and row count; `Except.error`
models a raised exception.  Returns the boolean result of the source
together with an instrumentation flag telling whether the remote write
was invoked. -/
def load_to_bigquery (df : Option DataFrame)
    (project_id dataset table country_code document_type : String)
    (bq_load : String → List String → Nat → Except String Unit) :
    Bool × Bool :=
  match df with
  | none => (false, false)
  | some d =>
    if d.isEmpty then (false, false)
    else
      let table_id := project_id ++ "." ++ dataset ++ "." ++ table
      let _ := country_code
      let _ := document_type
      match bq_load table_id (preparedColumnNames d) d.nrows with
      | .ok _ => (true, true)
      | .error _ => (false, true)

/-- The three `EntsoePandasClient` query methods that
`DOCUMENT_TYPE_MAPPING` (source lines 163–167) can dispatch to; each
takes a country code and a localized start and end instant, and may
raise (`Except.error`). -/
structure EntsoeClient where
  query_generation : String → Int → Int → Except String DataFrame
  query_generation_per_plant : String → Int → Int → Except String DataFrame
  query_installed_generation_capacity : String → Int → Int → Except String DataFrame

/-- `DOCUMENT_TYPE_MAPPING` followed by `getattr` (source lines 163–182):
resolves a document-type code to a client method, `none` for
unsupported codes. -/
def documentTypeMethod (document_type : String) :
    Option (EntsoeClient → String → Int → Int → Except String DataFrame) :=
  if document_type = "A75" then some (fun c => c.query_generation)
  else if document_type = "A73" then some (fun c => c.query_generation_per_plant)
  else if document_type = "A68" then some (fun c => c.query_installed_generation_capacity)
  else none

/-- `fetch_data` (source lines 147–193).  `tz_localize` models
`pd.Timestamp(·).tz_localize('Europe/Brussels')`; the `try/except`
around the client call becomes a `match` on `Except`. -/
def fetch_data (client : EntsoeClient) (tz_localize : Int → Int)
    (country_code document_type : String) (start_date end_date : Int) :
    Option DataFrame :=
  let start := tz_localize start_date
  let stop := tz_localize end_date
  match documentTypeMethod document_type with
  | none => none
  | some method =>
    match method client country_code start stop with
    | .ok df => some df
    | .error _ => none

/-- A `documents` entry of `config.yaml`: the driver reads its `type`
field (source line 299). -/
structure Document where
  type : String

/-- One iteration of the driver's nested loop: the (country, document
type) pair it fetched, the fetched result, and the loader's result when
the loader was invoked (`none` when the fetch returned no data). -/
structure IterRecord where
  country_code : String
  document_type : String
  fetched : Option DataFrame
  load_result : Option Bool

/-- The inner loop of `main` (source lines 296–317) for one country,
instrumented to return the trace of its iterations.  `fetch` and
`load` abstract `fetch_data` / `load_to_bigquery` with the run-wide
arguments (client, dates, project, dataset) already applied; `load`
receives the DataFrame, the resolved table name, and the (country,
document type) pair. -/
def inner_loop (documents : List Document)
    (fetch : String → String → Option DataFrame)
    (load : DataFrame → String → String → String → Bool)
    (country_code : String) : List IterRecord :=
  documents.map fun document =>
    let document_type := document.type
    let df := fetch country_code document_type
    { country_code := country_code
      document_type := document_type
      fetched := df
      load_result :=
        match df with
        | some d => some (load d (get_table_name document_type) country_code document_type)
        | none => none }

/-- The outer loop of `main` (source line 293): one `inner_loop` per
configured country. -/
def main_loop (countries : List String) (documents : List Document)
    (fetch : String → String → Option DataFrame)
    (load : DataFrame → String → String → String → Bool) : List IterRecord :=
  countries.flatMap (inner_loop documents fetch load)

/-- Python truthiness of an optional string argument: `not args.start`
is true when the flag is absent or its value is the empty string. -/
def falsy : Option String → Bool
  | none => true
  | some s => s.isEmpty

/-- `parse_arguments` (source lines 73–106), after `argparse` produced
the two optional flag values.  Time instants are seconds since an
arbitrary epoch, so `timedelta(days=30)` is `30 * 86400` seconds;
`strptime` models `datetime.strptime(·, '%Y-%m-%d')`, whose parse
failure would propagate (hence `Except`). -/
def parse_arguments (strptime : String → Except String Int)
    (start_arg end_arg : Option String) (now : Int) :
    Except String (Int × Int) :=
  if falsy start_arg || falsy end_arg then
    let end_date := now
    let start_date := end_date - 30 * 86400
    .ok (start_date, end_date)
  else do
    let start_date ← strptime (start_arg.getD "")
    let end_date ← strptime (end_arg.getD "")
    .ok (start_date, end_date)

/-- No two consecutive underscores anywhere in the list. -/
def noDouble : List Char → Bool
  | [] => true
  | a :: rest => !(a = '_' && rest.head? = some '_') && noDouble rest

/-- The shape invariant of sanitized names: only `[a-z0-9_]`
characters, no consecutive underscores, and no leading or trailing
underscore. -/
def goodName (l : List Char) : Bool :=
  l.all isAllowed && noDouble l && !(l.head? = some '_') && !(l.getLast? = some '_')

/-- The iterated group `(_[a-z0-9]+)*` of the specification's regular
expression: a concatenation of zero or more groups, each an underscore
followed by one or more characters of `[a-z0-9]`. -/
inductive Groups : List Char → Prop where
  | nil : Groups []
  | cons (w rest : List Char) (hw : w ≠ []) (hall : ∀ c ∈ w, isAlnum c = true)
      (h : Groups rest) : Groups ('_' :: (w ++ rest))

/-- The specification's regular expression `^[a-z0-9]*(_[a-z0-9]+)*$`,
transliterated: a possibly empty word over `[a-z0-9]` followed by zero
or more `(_[a-z0-9]+)` groups, covering the whole string.  The empty
string matches (empty word, zero groups). -/
def ReMatch (l : List Char) : Prop :=
  ∃ w rest, (∀ c ∈ w, isAlnum c = true) ∧ Groups rest ∧ l = w ++ rest

/-- A client whose three query methods all raise; used to witness the
failure-handling theorems. -/
def failClient : EntsoeClient :=
  { query_generation := fun _ _ _ => .error "boom"
    query_generation_per_plant := fun _ _ _ => .error "boom"
    query_installed_generation_capacity := fun _ _ _ => .error "boom" }

lemma collapseSpec_cons (a : Char) (t : List Char) :
    collapseSpec (a :: t)
      = if a = '_' && (collapseSpec t).head? = some '_' then collapseSpec t
        else a :: collapseSpec t := rfl

lemma head?_collapseSpec (t : List Char) (b : Char) :
    (collapseSpec (b :: t)).head? = some b := by
  induction t generalizing b with
  | nil => simp [collapseSpec]
  | cons c r ih =>
    rw [collapseSpec_cons]
    by_cases hb : (b = '_' && ((collapseSpec (c :: r)).head? = some '_')) = true
    · rw [if_pos hb]
      simp only [Bool.and_eq_true, decide_eq_true_eq] at hb
      obtain ⟨hb1, hb2⟩ := hb
      rw [ih c] at hb2 ⊢
      simp only [Option.some.injEq] at hb2 ⊢
      rw [hb1, hb2]
    · rw [if_neg hb]
      rfl

lemma collapse_eq (l : List Char) : collapseUnderscores l = collapseSpec l := by
  induction l with
  | nil => rfl
  | cons a t ih =>
    cases t with
    | nil => simp [collapseUnderscores, collapseSpec]
    | cons b r =>
      rw [show collapseUnderscores (a :: b :: r)
            = if a = '_' && b = '_' then collapseUnderscores (b :: r)
              else a :: collapseUnderscores (b :: r) from rfl]
      rw [collapseSpec_cons, ih, head?_collapseSpec r b]
      simp only [Option.some.injEq]

lemma strip_eq (l : List Char) :
    stripUnderscores l = List.rdropWhile (· = '_') (l.dropWhile (· = '_')) := rfl

lemma char_eq_of_toNat_eq {c d : Char} (h : c.toNat = d.toNat) : c = d := by
  rw [← Char.ofNat_toNat c, h, Char.ofNat_toNat]

lemma eq_underscore_of_toNat {c : Char} (h : c.toNat = 95) : c = '_' :=
  char_eq_of_toNat_eq (h.trans rfl)

lemma toNat_ne_of_ne_underscore {c : Char} (h : c ≠ '_') : c.toNat ≠ 95 :=
  fun hn => h (eq_underscore_of_toNat hn)

lemma isAlnum_of_isAllowed_ne {c : Char} (h1 : isAllowed c = true) (h2 : c ≠ '_') :
    isAlnum c = true := by
  have h95 := toNat_ne_of_ne_underscore h2
  simp only [isAllowed, Bool.or_eq_true, Bool.and_eq_true, decide_eq_true_eq,
    beq_iff_eq] at h1
  simp only [isAlnum, Bool.or_eq_true, Bool.and_eq_true, decide_eq_true_eq]
  omega

lemma underscore_of_isAllowed_not_alnum {c : Char} (h1 : isAllowed c = true)
    (h2 : isAlnum c = false) : c = '_' := by
  simp only [isAllowed, Bool.or_eq_true, Bool.and_eq_true, decide_eq_true_eq,
    beq_iff_eq] at h1
  simp only [isAlnum, Bool.or_eq_false_iff, Bool.and_eq_false_iff,
    decide_eq_false_iff_not] at h2
  apply eq_underscore_of_toNat
  omega

lemma toLower_eq_self_of_isAllowed {c : Char} (h : isAllowed c = true) :
    c.toLower = c := by
  simp only [isAllowed, Bool.or_eq_true, Bool.and_eq_true, decide_eq_true_eq,
    beq_iff_eq] at h
  have h2 : ¬(c.toNat ≥ 65 ∧ c.toNat ≤ 90) := by omega
  simp [Char.toLower, h2]

lemma all_isAllowed_replaceSpecial (l : List Char) :
    (replaceSpecial l).all isAllowed = true := by
  simp only [replaceSpecial, List.all_map, List.all_eq_true, Function.comp]
  intro c _
  by_cases h : isAllowed c = true
  · rwa [if_pos h]
  · rw [if_neg h]
    decide

lemma all_collapseSpec {p : Char → Bool} {l : List Char} (h : l.all p = true) :
    (collapseSpec l).all p = true := by
  induction l with
  | nil => simp [collapseSpec]
  | cons a t ih =>
    simp only [List.all_cons, Bool.and_eq_true] at h
    rw [collapseSpec_cons]
    by_cases hc : (a = '_' && ((collapseSpec t).head? = some '_')) = true
    · rw [if_pos hc]
      exact ih h.2
    · rw [if_neg hc]
      simp only [List.all_cons, Bool.and_eq_true]
      exact ⟨h.1, ih h.2⟩

lemma noDouble_cons_iff (a : Char) (t : List Char) :
    noDouble (a :: t) = true
      ↔ ¬(a = '_' ∧ t.head? = some '_') ∧ noDouble t = true := by
  simp only [noDouble, Bool.and_eq_true, Bool.not_eq_true', Bool.and_eq_false_iff,
    decide_eq_false_iff_not, decide_eq_true_eq]
  tauto

lemma noDouble_collapseSpec (l : List Char) : noDouble (collapseSpec l) = true := by
  induction l with
  | nil => simp [collapseSpec, noDouble]
  | cons a t ih =>
    rw [collapseSpec_cons]
    by_cases hc : (a = '_' && ((collapseSpec t).head? = some '_')) = true
    · rw [if_pos hc]
      exact ih
    · rw [if_neg hc]
      rw [noDouble_cons_iff]
      simp only [Bool.and_eq_true, decide_eq_true_eq] at hc
      exact ⟨fun hand => hc ⟨hand.1, hand.2⟩, ih⟩

lemma all_dropWhile {p q : Char → Bool} {l : List Char} (h : l.all p = true) :
    (l.dropWhile q).all p = true := by
  induction l with
  | nil => simp
  | cons a t ih =>
    simp only [List.all_cons, Bool.and_eq_true] at h
    rw [List.dropWhile_cons]
    by_cases hq : q a = true
    · rw [if_pos hq]
      exact ih h.2
    · rw [if_neg hq]
      simp only [List.all_cons, Bool.and_eq_true]
      exact ⟨h.1, h.2⟩

lemma noDouble_tail {a : Char} {t : List Char} (h : noDouble (a :: t) = true) :
    noDouble t = true :=
  ((noDouble_cons_iff a t).mp h).2

lemma noDouble_dropWhile {q : Char → Bool} {l : List Char} (h : noDouble l = true) :
    noDouble (l.dropWhile q) = true := by
  induction l with
  | nil => simpa using h
  | cons a t ih =>
    rw [List.dropWhile_cons]
    by_cases hq : q a = true
    · rw [if_pos hq]
      exact ih (noDouble_tail h)
    · rw [if_neg hq]
      exact h

lemma head?_dropWhile_ne {q : Char → Bool} {l : List Char} {c : Char}
    (h : (l.dropWhile q).head? = some c) : q c = false := by
  induction l with
  | nil => simp at h
  | cons a t ih =>
    rw [List.dropWhile_cons] at h
    by_cases hq : q a = true
    · rw [if_pos hq] at h
      exact ih h
    · rw [if_neg hq] at h
      simp only [List.head?_cons, Option.some.injEq] at h
      subst h
      exact Bool.not_eq_true _ ▸ hq

lemma noDouble_iff_chain (l : List Char) :
    noDouble l = true ↔ l.Chain' (fun a b => ¬(a = '_' ∧ b = '_')) := by
  induction l with
  | nil => simp [noDouble]
  | cons a t ih =>
    rw [noDouble_cons_iff, List.chain'_cons', ih]
    constructor
    · rintro ⟨h1, h2⟩
      refine ⟨?_, h2⟩
      intro y hy hand
      cases t with
      | nil => simp at hy
      | cons b r =>
        simp only [List.head?_cons, Option.mem_def, Option.some.injEq] at hy
        subst hy
        exact h1 ⟨hand.1, by simp [hand.2]⟩
    · rintro ⟨h1, h2⟩
      refine ⟨?_, h2⟩
      rintro ⟨ha, hh⟩
      cases t with
      | nil => simp at hh
      | cons b r =>
        simp only [List.head?_cons, Option.some.injEq] at hh
        exact h1 b (by simp) ⟨ha, hh⟩

lemma noDouble_reverse (l : List Char) : noDouble l.reverse = noDouble l := by
  have hiff : noDouble l.reverse = true ↔ noDouble l = true := by
    rw [noDouble_iff_chain, noDouble_iff_chain, List.chain'_reverse]
    constructor
    · exact fun h => h.imp fun a b hab hand => hab ⟨hand.2, hand.1⟩
    · exact fun h => h.imp fun a b hab hand => hab ⟨hand.2, hand.1⟩
  cases hrev : noDouble l.reverse <;> cases horig : noDouble l <;> simp_all

lemma getLast?_dropWhile_of_ne_nil {q : Char → Bool} {z : List Char}
    (h : z.dropWhile q ≠ []) : (z.dropWhile q).getLast? = z.getLast? := by
  conv_rhs => rw [← List.takeWhile_append_dropWhile q z]
  rw [List.getLast?_append]
  cases hx : (z.dropWhile q).getLast? with
  | none => exact absurd (List.getLast?_eq_none_iff.mp hx) h
  | some x => rfl

lemma goodName_strip {l : List Char} (hall : l.all isAllowed = true)
    (hnd : noDouble l = true) : goodName (stripUnderscores l) = true := by
  unfold stripUnderscores goodName
  have hallY : (l.dropWhile (· = '_')).all isAllowed = true := all_dropWhile hall
  have hndY : noDouble (l.dropWhile (· = '_')) = true := noDouble_dropWhile hnd
  have hallW : ((l.dropWhile (· = '_')).reverse.dropWhile (· = '_')).all isAllowed = true :=
    all_dropWhile (by simpa using hallY)
  have hndW : noDouble ((l.dropWhile (· = '_')).reverse.dropWhile (· = '_')) = true :=
    noDouble_dropWhile (by rw [noDouble_reverse]; exact hndY)
  have hlastW : ((l.dropWhile (· = '_')).reverse.dropWhile (· = '_')).getLast? ≠ some '_' := by
    by_cases hne : (l.dropWhile (· = '_')).reverse.dropWhile (· = '_') = []
    · simp [hne]
    · rw [getLast?_dropWhile_of_ne_nil hne, List.getLast?_reverse]
      cases hh : (l.dropWhile (· = '_')).head? with
      | none => simp
      | some c =>
        have hne2 := head?_dropWhile_ne hh
        simp only [decide_eq_false_iff_not] at hne2
        intro hc
        injection hc with hc2
        exact hne2 hc2
  have hheadW : ((l.dropWhile (· = '_')).reverse.dropWhile (· = '_')).head? ≠ some '_' := by
    cases hh : ((l.dropWhile (· = '_')).reverse.dropWhile (· = '_')).head? with
    | none => simp
    | some c =>
      have hne2 := head?_dropWhile_ne hh
      simp only [decide_eq_false_iff_not] at hne2
      intro hc
      injection hc with hc2
      exact hne2 hc2
  simp only [List.all_reverse, noDouble_reverse, List.head?_reverse, List.getLast?_reverse]
  simp [hallW, hndW, hlastW, hheadW]

lemma goodName_sanitize (s : String) : goodName (sanitize_column_name s).data = true := by
  show goodName (stripUnderscores (collapseUnderscores (replaceSpecial (s.data.map Char.toLower)))) = true
  apply goodName_strip
  · rw [collapse_eq]
    exact all_collapseSpec (all_isAllowed_replaceSpecial _)
  · rw [collapse_eq]
    exact noDouble_collapseSpec _

lemma map_toLower_id {l : List Char} (h : l.all isAllowed = true) :
    l.map Char.toLower = l := by
  induction l with
  | nil => rfl
  | cons a t ih =>
    simp only [List.all_cons, Bool.and_eq_true] at h
    simp [toLower_eq_self_of_isAllowed h.1, ih h.2]

lemma replaceSpecial_id {l : List Char} (h : l.all isAllowed = true) :
    replaceSpecial l = l := by
  induction l with
  | nil => rfl
  | cons a t ih =>
    simp only [List.all_cons, Bool.and_eq_true] at h
    simp only [replaceSpecial, List.map_cons, if_pos h.1]
    have := ih h.2
    simp only [replaceSpecial] at this
    rw [this]

lemma collapseSpec_id {l : List Char} (h : noDouble l = true) : collapseSpec l = l := by
  induction l with
  | nil => rfl
  | cons a t ih =>
    obtain ⟨h1, h2⟩ := (noDouble_cons_iff a t).mp h
    rw [collapseSpec_cons, ih h2, if_neg]
    simp only [Bool.and_eq_true, decide_eq_true_eq]
    exact fun hand => h1 ⟨hand.1, hand.2⟩

lemma dropWhile_underscore_id {l : List Char} (h : l.head? ≠ some '_') :
    l.dropWhile (· = '_') = l := by
  cases l with
  | nil => rfl
  | cons a t =>
    rw [List.dropWhile_cons, if_neg]
    simp only [decide_eq_true_eq]
    intro ha
    apply h
    rw [List.head?_cons, ha]

lemma strip_id {l : List Char} (hh : l.head? ≠ some '_')
    (hl : l.getLast? ≠ some '_') : stripUnderscores l = l := by
  unfold stripUnderscores
  rw [dropWhile_underscore_id hh,
    dropWhile_underscore_id (by simpa using hl), List.reverse_reverse]

lemma goodName_split {l : List Char} (h : goodName l = true) :
    l.all isAllowed = true ∧ noDouble l = true
      ∧ l.head? ≠ some '_' ∧ l.getLast? ≠ some '_' := by
  simp only [goodName, Bool.and_eq_true, Bool.not_eq_true', decide_eq_false_iff_not] at h
  exact ⟨h.1.1.1, h.1.1.2, h.1.2, h.2⟩

lemma sanitize_fix {l : List Char} (h : goodName l = true) :
    stripUnderscores (collapseUnderscores (replaceSpecial (l.map Char.toLower))) = l := by
  obtain ⟨h1, h2, h3, h4⟩ := goodName_split h
  rw [map_toLower_id h1, replaceSpecial_id h1, collapse_eq, collapseSpec_id h2,
    strip_id h3 h4]

lemma sanitize_idem (s : String) :
    sanitize_column_name (sanitize_column_name s) = sanitize_column_name s := by
  show (⟨stripUnderscores (collapseUnderscores (replaceSpecial
      ((sanitize_column_name s).data.map Char.toLower)))⟩ : String) = sanitize_column_name s
  rw [sanitize_fix (goodName_sanitize s)]

lemma noDouble_append_right (w l : List Char) (h : noDouble (w ++ l) = true) :
    noDouble l = true := by
  induction w with
  | nil => exact h
  | cons a t ih => exact ih (noDouble_tail (by simpa using h))

lemma getLast?_append_right (w l : List Char) (h : l ≠ []) :
    (w ++ l).getLast? = l.getLast? := by
  rw [List.getLast?_append]
  cases hx : l.getLast? with
  | none => exact absurd (List.getLast?_eq_none_iff.mp hx) h
  | some x => rfl

lemma head_shape_dropWhile_alnum {l : List Char} (hall : l.all isAllowed = true) :
    l.dropWhile isAlnum = [] ∨ (l.dropWhile isAlnum).head? = some '_' := by
  cases hre : (l.dropWhile isAlnum).head? with
  | none => exact Or.inl (List.head?_eq_none_iff.mp hre)
  | some c =>
    right
    have hfalse := head?_dropWhile_ne hre
    have hc_allowed : isAllowed c = true := by
      obtain ⟨ys, hys⟩ := List.head?_eq_some_iff.mp hre
      have := all_dropWhile (q := isAlnum) hall
      rw [hys, List.all_cons, Bool.and_eq_true] at this
      exact this.1
    rw [underscore_of_isAllowed_not_alnum hc_allowed hfalse]

lemma groups_of_good : ∀ (n : Nat) (l : List Char), l.length ≤ n →
    l.all isAllowed = true → noDouble l = true → l.getLast? ≠ some '_' →
    (l = [] ∨ l.head? = some '_') → Groups l := by
  intro n
  induction n with
  | zero =>
    intro l hlen _ _ _ _
    have : l = [] := List.length_eq_zero.mp (Nat.le_zero.mp hlen)
    exact this ▸ Groups.nil
  | succ n ih =>
    intro l hlen hall hnd hlast hhead
    rcases hhead with rfl | hhead
    · exact Groups.nil
    · obtain ⟨t, rfl⟩ : ∃ t, l = '_' :: t := by
        obtain ⟨ys, hys⟩ := List.head?_eq_some_iff.mp hhead
        exact ⟨ys, hys⟩
      have htw : t.takeWhile isAlnum ++ t.dropWhile isAlnum = t :=
        List.takeWhile_append_dropWhile isAlnum t
      have halltail : t.all isAllowed = true := by
        rw [List.all_cons, Bool.and_eq_true] at hall
        exact hall.2
      have hndt : noDouble t = true := noDouble_tail hnd
      have hwne : t.takeWhile isAlnum ≠ [] := by
        cases t with
        | nil => exact absurd rfl hlast
        | cons c t2 =>
          have hc_ne : c ≠ '_' := by
            obtain ⟨h1, _⟩ := (noDouble_cons_iff '_' (c :: t2)).mp hnd
            intro hc
            exact h1 ⟨rfl, by rw [List.head?_cons, hc]⟩
          have hc_allowed : isAllowed c = true := by
            rw [List.all_cons, Bool.and_eq_true] at halltail
            exact halltail.1
          have := isAlnum_of_isAllowed_ne hc_allowed hc_ne
          rw [List.takeWhile_cons_of_pos this]
          exact List.cons_ne_nil c _
      have hallw : ∀ c ∈ t.takeWhile isAlnum, isAlnum c = true := by
        intro c hc
        exact List.all_eq_true.mp List.all_takeWhile c hc
      have hallrest : (t.dropWhile isAlnum).all isAllowed = true :=
        all_dropWhile halltail
      have hndrest : noDouble (t.dropWhile isAlnum) = true :=
        noDouble_dropWhile hndt
      have hlastrest : (t.dropWhile isAlnum).getLast? ≠ some '_' := by
        by_cases hre : t.dropWhile isAlnum = []
        · simp [hre]
        · have heq : ('_' :: t).getLast? = (t.dropWhile isAlnum).getLast? := by
            conv_lhs => rw [← htw]
            rw [show ('_' :: (t.takeWhile isAlnum ++ t.dropWhile isAlnum))
                  = ('_' :: t.takeWhile isAlnum) ++ t.dropWhile isAlnum from rfl]
            exact getLast?_append_right _ _ hre
          rw [← heq]
          exact hlast
      have hheadrest := head_shape_dropWhile_alnum halltail
      have hlenrest : (t.dropWhile isAlnum).length ≤ n := by
        have h1 : (t.dropWhile isAlnum).length ≤ t.length := by
          conv_rhs => rw [← htw]
          rw [List.length_append]
          omega
        have h2 : t.length + 1 ≤ n + 1 := by simpa using hlen
        omega
      have hg : Groups (t.dropWhile isAlnum) :=
        ih (t.dropWhile isAlnum) hlenrest hallrest hndrest hlastrest hheadrest
      have := Groups.cons (t.takeWhile isAlnum) (t.dropWhile isAlnum) hwne hallw hg
      rwa [htw] at this

lemma reMatch_of_goodName {l : List Char} (h : goodName l = true) : ReMatch l := by
  obtain ⟨h1, h2, _, h4⟩ := goodName_split h
  refine ⟨l.takeWhile isAlnum, l.dropWhile isAlnum, ?_, ?_, ?_⟩
  · intro c hc
    exact List.all_eq_true.mp List.all_takeWhile c hc
  · refine groups_of_good l.length (l.dropWhile isAlnum) ?_ (all_dropWhile h1)
      (noDouble_dropWhile h2) ?_ (head_shape_dropWhile_alnum h1)
    · have : l.takeWhile isAlnum ++ l.dropWhile isAlnum = l :=
        List.takeWhile_append_dropWhile isAlnum l
      conv_rhs => rw [← this]
      rw [List.length_append]
      omega
    · by_cases hre : l.dropWhile isAlnum = []
      · simp [hre]
      · rw [show (l.dropWhile isAlnum).getLast? = l.getLast? by
            conv_rhs => rw [← List.takeWhile_append_dropWhile isAlnum l]
            exact (getLast?_append_right _ _ hre).symm]
        exact h4
  · exact (List.takeWhile_append_dropWhile isAlnum l).symm

/-- C3: the sanitizer is exactly the four-step normalization the
specification describes — lowercase, replace characters outside
`[a-z0-9_]`, collapse consecutive underscores, trim leading and
trailing underscores — it is total (a Lean function on all of
`String`), and the empty string maps to the empty string. -/
theorem sanitize_column_name_eq_spec (s : String) :
    sanitize_column_name s = sanitizeSpec s ∧ sanitize_column_name "" = "" := by
  refine ⟨?_, rfl⟩
  unfold sanitize_column_name sanitizeSpec
  rw [collapse_eq, strip_eq]
  rfl

/-- C4: every sanitizer output matches the regular expression
`^[a-z0-9]*(_[a-z0-9]+)*$` (or is empty), the sanitizer is idempotent,
and the three example inputs map to their expected outputs. -/
theorem sanitize_column_name_regex_idempotent (s : String) :
    (ReMatch (sanitize_column_name s).data ∨ sanitize_column_name s = "")
    ∧ sanitize_column_name (sanitize_column_name s) = sanitize_column_name s
    ∧ sanitize_column_name "Actual Generation/MW" = "actual_generation_mw"
    ∧ sanitize_column_name "Production.Total" = "production_total"
    ∧ sanitize_column_name "__A__B__" = "a_b" :=
  ⟨Or.inl (reMatch_of_goodName (goodName_sanitize s)), sanitize_idem s,
    by decide, by decide, by decide⟩

lemma mem_assignColumn {cols : List String} {n x : String}
    (h : x ∈ assignColumn cols n) : x ∈ cols ∨ x = n := by
  unfold assignColumn at h
  by_cases hm : n ∈ cols
  · rw [if_pos hm] at h
    exact Or.inl h
  · rw [if_neg hm] at h
    rcases List.mem_append.mp h with h | h
    · exact Or.inl h
    · exact Or.inr (List.mem_singleton.mp h)

lemma goodName_preparedColumnNames (df : DataFrame) :
    ∀ name ∈ preparedColumnNames df, goodName name.data = true := by
  intro name hname
  unfold preparedColumnNames at hname
  rcases mem_assignColumn hname with hname | rfl
  · rcases mem_assignColumn hname with hname | rfl
    · rcases mem_assignColumn hname with hname | rfl
      · unfold sanitizedColumnNames at hname
        obtain ⟨raw, _, rfl⟩ := List.mem_map.mp hname
        exact goodName_sanitize raw
      · decide
    · decide
  · decide

lemma lowercase_of_all_isAllowed {l : List Char} (h : l.all isAllowed = true) :
    l.all (fun c => !(65 ≤ c.toNat && c.toNat ≤ 90)) = true := by
  rw [List.all_eq_true] at h ⊢
  intro c hc
  have := h c hc
  simp only [isAllowed, Bool.or_eq_true, Bool.and_eq_true, decide_eq_true_eq,
    beq_iff_eq] at this
  simp only [Bool.not_eq_true', Bool.and_eq_false_iff, decide_eq_false_iff_not]
  omega

/-- C1: the driver invokes the adapter exactly N×M times, countries
outermost and documents innermost in configuration order, and the trace
of attempted (country, document type) pairs does not depend on the
fetch or load results — so no failure or empty result for one pair
prevents any later pair from being attempted. -/
theorem main_loop_cross_product (countries : List String) (documents : List Document)
    (fetch : String → String → Option DataFrame)
    (load : DataFrame → String → String → String → Bool) :
    ((main_loop countries documents fetch load).map fun r => (r.country_code, r.document_type))
      = countries.flatMap (fun c => documents.map fun d => (c, d.type))
    ∧ (main_loop countries documents fetch load).length
      = countries.length * documents.length := by
  have hmap : ∀ c : String,
      ((inner_loop documents fetch load c).map fun r => (r.country_code, r.document_type))
        = documents.map fun d => (c, d.type) := by
    intro c
    simp only [inner_loop, List.map_map]
    rfl
  have hlen : ∀ c : String, (inner_loop documents fetch load c).length = documents.length := by
    intro c
    simp [inner_loop]
  induction countries with
  | nil => simp [main_loop]
  | cons c cs ih =>
    obtain ⟨ih₁, ih₂⟩ := ih
    have hcons : main_loop (c :: cs) documents fetch load
        = inner_loop documents fetch load c ++ main_loop cs documents fetch load := by
      simp [main_loop]
    constructor
    · rw [hcons, List.map_append, ih₁, hmap, List.flatMap_cons]
    · rw [hcons, List.length_append, ih₂, hlen, List.length_cons]
      ring

/-- C2: the warehouse loader returns `false` without invoking the
remote write when the table is absent or empty, and catches a failing
remote write, returning `false` (the write having been invoked); its
return type makes it total — it always returns a boolean. -/
theorem load_to_bigquery_boundary
    (project_id dataset table cc dt : String)
    (bq_load : String → List String → Nat → Except String Unit) :
    load_to_bigquery none project_id dataset table cc dt bq_load = (false, false)
    ∧ (∀ df : DataFrame, df.isEmpty = true →
        load_to_bigquery (some df) project_id dataset table cc dt bq_load = (false, false))
    ∧ (∀ (df : DataFrame) (msg : String), df.isEmpty = false →
        bq_load (project_id ++ "." ++ dataset ++ "." ++ table)
          (preparedColumnNames df) df.nrows = .error msg →
        load_to_bigquery (some df) project_id dataset table cc dt bq_load = (false, true)) := by
  refine ⟨rfl, ?_, ?_⟩
  · intro df hemp
    simp [load_to_bigquery, hemp]
  · intro df msg hemp hcall
    simp [load_to_bigquery, hemp, hcall]

/-- C2 witness: the boundary theorem applied at a concrete empty table
and at a concrete non-empty table with a failing remote write. -/
theorem load_to_bigquery_boundary_witness :
    load_to_bigquery (some ⟨["index"], .flat ["Solar"], 0⟩) "p" "d" "t" "FR" "A75"
      (fun _ _ _ => .error "boom") = (false, false)
    ∧ load_to_bigquery (some ⟨["index"], .flat ["Solar"], 2⟩) "p" "d" "t" "FR" "A75"
      (fun _ _ _ => .error "boom") = (false, true) :=
  ⟨(load_to_bigquery_boundary "p" "d" "t" "FR" "A75" (fun _ _ _ => .error "boom")).2.1
      ⟨["index"], .flat ["Solar"], 0⟩ (by decide),
   (load_to_bigquery_boundary "p" "d" "t" "FR" "A75" (fun _ _ _ => .error "boom")).2.2
      ⟨["index"], .flat ["Solar"], 2⟩ "boom" (by decide) rfl⟩

/-- C5: the table-name resolver is total, maps the three known codes to
their fixed names, and maps every other code to the derived name
obtained by prepending the prefix to the lowercased code. -/
theorem get_table_name_total (c : String)
    (h75 : c ≠ "A75") (h73 : c ≠ "A73") (h68 : c ≠ "A68") :
    get_table_name "A75" = "bronze_entsoe_a75_actual_generation"
    ∧ get_table_name "A73" = "bronze_entsoe_a73_generation_forecast"
    ∧ get_table_name "A68" = "bronze_entsoe_a68_installed_capacity"
    ∧ get_table_name c = "bronze_entsoe_" ++ pyLower c
    ∧ get_table_name "X1" = "bronze_entsoe_x1" := by
  refine ⟨rfl, rfl, rfl, ?_, by decide⟩
  simp [get_table_name, h75, h73, h68]

/-- C5 witness: the resolver theorem applied at the unknown code
`"X1"`. -/
theorem get_table_name_total_witness :
    get_table_name "A75" = "bronze_entsoe_a75_actual_generation"
    ∧ get_table_name "A73" = "bronze_entsoe_a73_generation_forecast"
    ∧ get_table_name "A68" = "bronze_entsoe_a68_installed_capacity"
    ∧ get_table_name "X1" = "bronze_entsoe_" ++ pyLower "X1"
    ∧ get_table_name "X1" = "bronze_entsoe_x1" :=
  get_table_name_total "X1" (by decide) (by decide) (by decide)

/-- C6: the adapter returns `none` rather than raising, both for a
document-type code outside the three supported ones and when the
dispatched client method raises; its `Option` return type carries no
error, so a client failure is never propagated. -/
theorem fetch_data_no_raise (client : EntsoeClient) (tz : Int → Int)
    (cc dt : String) (s e : Int) :
    (dt ≠ "A75" → dt ≠ "A73" → dt ≠ "A68" →
      fetch_data client tz cc dt s e = none)
    ∧ (∀ m msg, documentTypeMethod dt = some m →
        m client cc (tz s) (tz e) = .error msg →
        fetch_data client tz cc dt s e = none) := by
  constructor
  · intro h75 h73 h68
    simp [fetch_data, documentTypeMethod, h75, h73, h68]
  · intro m msg hm hcall
    simp [fetch_data, hm, hcall]

/-- C6 witness: the adapter theorem applied at the unsupported code
`"B99"` and at `"A75"` with a client whose query raises. -/
theorem fetch_data_no_raise_witness :
    fetch_data failClient id "FR" "B99" 0 1 = none
    ∧ fetch_data failClient id "FR" "A75" 0 1 = none :=
  ⟨(fetch_data_no_raise failClient id "FR" "B99" 0 1).1 (by decide) (by decide) (by decide),
   (fetch_data_no_raise failClient id "FR" "A75" 0 1).2
      (fun c => c.query_generation) "boom" rfl rfl⟩

/-- C9: when either date flag is absent, both dates default: the
parsed end date equals the invocation time and the range is exactly 30
days (in seconds). -/
theorem parse_arguments_default (strptime : String → Except String Int)
    (start_arg end_arg : Option String) (now : Int)
    (h : start_arg = none ∨ end_arg = none) :
    ∃ start_date end_date,
      parse_arguments strptime start_arg end_arg now = .ok (start_date, end_date)
      ∧ end_date = now ∧ end_date - start_date = 30 * 86400 := by
  have hf : (falsy start_arg || falsy end_arg) = true := by
    rcases h with h | h <;> simp [h, falsy]
  exact ⟨now - 30 * 86400, now, by simp [parse_arguments, hf], rfl, by ring⟩

/-- C9 witness: the default-date theorem applied with both flags
absent at invocation time 0. -/
theorem parse_arguments_default_witness :
    ∃ start_date end_date,
      parse_arguments (fun _ => .error "unused") none none 0 = .ok (start_date, end_date)
      ∧ end_date = 0 ∧ end_date - start_date = 30 * 86400 :=
  parse_arguments_default (fun _ => .error "unused") none none 0 (Or.inl rfl)

/-- C10: the resolver's static lookup is case-sensitive — every code
other than the three exact known ones, including the lowercase variant
`"a75"`, gets the derived name, not the fixed one. -/
theorem get_table_name_case_sensitive (c : String)
    (h75 : c ≠ "A75") (h73 : c ≠ "A73") (h68 : c ≠ "A68") :
    get_table_name c = "bronze_entsoe_" ++ pyLower c
    ∧ get_table_name "a75" = "bronze_entsoe_a75"
    ∧ get_table_name "a75" ≠ "bronze_entsoe_a75_actual_generation"
    ∧ get_table_name "a73" = "bronze_entsoe_a73"
    ∧ get_table_name "a68" = "bronze_entsoe_a68" := by
  refine ⟨?_, by decide, by decide, by decide, by decide⟩
  simp [get_table_name, h75, h73, h68]

/-- C10 witness: the case-sensitivity theorem applied at the lowercase
code `"a75"`. -/
theorem get_table_name_case_sensitive_witness :
    get_table_name "a75" = "bronze_entsoe_" ++ pyLower "a75"
    ∧ get_table_name "a75" = "bronze_entsoe_a75"
    ∧ get_table_name "a75" ≠ "bronze_entsoe_a75_actual_generation"
    ∧ get_table_name "a73" = "bronze_entsoe_a73"
    ∧ get_table_name "a68" = "bronze_entsoe_a68" :=
  get_table_name_case_sensitive "a75" (by decide) (by decide) (by decide)

/-- C7 (amended): provided no fetched column sanitizes to one of the
three metadata names, the prepared table is the sanitized columns with
exactly the three metadata columns `country_code`, `document_type`,
`ingestion_timestamp` appended after sanitization; and in all cases no
prepared column name retains a character outside `[a-z0-9_]`. -/
theorem prepared_columns_metadata (df : DataFrame) (hne : df.isEmpty = false)
    (h1 : "country_code" ∉ sanitizedColumnNames df)
    (h2 : "document_type" ∉ sanitizedColumnNames df)
    (h3 : "ingestion_timestamp" ∉ sanitizedColumnNames df) :
    preparedColumnNames df
      = sanitizedColumnNames df
        ++ ["country_code", "document_type", "ingestion_timestamp"]
    ∧ ∀ name ∈ preparedColumnNames df, name.data.all isAllowed = true := by
  constructor
  · have hstep1 : assignColumn (sanitizedColumnNames df) "country_code"
        = sanitizedColumnNames df ++ ["country_code"] := by
      unfold assignColumn
      rw [if_neg h1]
    have hstep2 : assignColumn (sanitizedColumnNames df ++ ["country_code"]) "document_type"
        = sanitizedColumnNames df ++ ["country_code", "document_type"] := by
      unfold assignColumn
      rw [if_neg]
      · rw [List.append_assoc]
        rfl
      · intro hmem
        rcases List.mem_append.mp hmem with hmem | hmem
        · exact h2 hmem
        · exact absurd (List.mem_singleton.mp hmem) (by decide)
    have hstep3 : assignColumn (sanitizedColumnNames df
          ++ ["country_code", "document_type"]) "ingestion_timestamp"
        = sanitizedColumnNames df
          ++ ["country_code", "document_type", "ingestion_timestamp"] := by
      unfold assignColumn
      rw [if_neg]
      · rw [List.append_assoc]
        rfl
      · intro hmem
        rcases List.mem_append.mp hmem with hmem | hmem
        · exact h3 hmem
        · exact absurd hmem (by decide)
    unfold preparedColumnNames
    rw [hstep1, hstep2, hstep3]
  · intro name hname
    exact (goodName_split (goodName_preparedColumnNames df name hname)).1

/-- C7 counterexample to the claim as stated: a non-empty fetched table
with a column named `"Country Code"` sanitizes to `country_code`, so
the pandas assignment overwrites that column in place instead of
appending — only two metadata columns are added, not three. -/
theorem prepared_columns_metadata_cex :
    (⟨["index"], .flat ["Country Code"], 1⟩ : DataFrame).isEmpty = false
    ∧ preparedColumnNames ⟨["index"], .flat ["Country Code"], 1⟩
        ≠ sanitizedColumnNames ⟨["index"], .flat ["Country Code"], 1⟩
          ++ ["country_code", "document_type", "ingestion_timestamp"]
    ∧ (preparedColumnNames ⟨["index"], .flat ["Country Code"], 1⟩).length
        = (sanitizedColumnNames ⟨["index"], .flat ["Country Code"], 1⟩).length + 2 :=
  ⟨by decide, by decide, by decide⟩

/-- C7 witness: the amended theorem applied at a concrete table whose
single data column `"Solar"` sanitizes to `solar`, away from the
metadata names. -/
theorem prepared_columns_metadata_witness :
    preparedColumnNames ⟨["index"], .flat ["Solar"], 2⟩
      = sanitizedColumnNames ⟨["index"], .flat ["Solar"], 2⟩
        ++ ["country_code", "document_type", "ingestion_timestamp"]
    ∧ ("solar" : String).data.all isAllowed = true :=
  ⟨(prepared_columns_metadata ⟨["index"], .flat ["Solar"], 2⟩
      (by decide) (by decide) (by decide) (by decide)).1,
   (prepared_columns_metadata ⟨["index"], .flat ["Solar"], 2⟩
      (by decide) (by decide) (by decide) (by decide)).2 "solar" (by decide)⟩

/-- C8 (amended): every prepared column name of an accepted table
satisfies the shape invariant — only `[a-z0-9_]` characters, no
leading, trailing or consecutive underscores (`goodName`) — and
contains no uppercase letter; uniqueness, however, does not hold (see
the counterexample). -/
theorem prepared_columns_shape (df : DataFrame) (hacc : df.isEmpty = false) :
    ∀ name ∈ preparedColumnNames df,
      goodName name.data = true
      ∧ name.data.all (fun c => !(65 ≤ c.toNat && c.toNat ≤ 90)) = true := by
  intro name hname
  have hg := goodName_preparedColumnNames df name hname
  exact ⟨hg, lowercase_of_all_isAllowed (goodName_split hg).1⟩

/-- C8 counterexample to the claim as stated: the distinct fetched
columns `"A B"` and `"A-B"` both sanitize to `a_b`, so the prepared
column names of this accepted (non-empty) table are not pairwise
unique. -/
theorem prepared_columns_not_unique :
    (⟨["index"], .flat ["A B", "A-B"], 2⟩ : DataFrame).isEmpty = false
    ∧ ¬ (preparedColumnNames ⟨["index"], .flat ["A B", "A-B"], 2⟩).Nodup :=
  ⟨by decide, by decide⟩

/-- C8 witness: the shape theorem applied at a concrete accepted table
and at its prepared column `solar`. -/
theorem prepared_columns_shape_witness :
    goodName ("solar" : String).data = true
    ∧ ("solar" : String).data.all (fun c => !(65 ≤ c.toNat && c.toNat ≤ 90)) = true :=
  prepared_columns_shape ⟨["index"], .flat ["Solar"], 2⟩ (by decide) "solar" (by decide)

end Entsoe
